import Mathlib

/-!
Verification of the DVLAE denoising pipeline (krulllab/DVLAE).

The repository consists of an inference notebook, a training notebook and
an evaluation notebook; the library components they call (the DVLAE
lightning module, LadderVAE, PixelCNN noise model, SDecoder, checkpoint
persistence) are not part of the given sources.  The inference loop, the
prediction dataloader, the training dataset and the configuration glue are
embedded here directly from the notebooks; the missing library internals
are modelled from the specification and are marked as such in their doc
comments.

Tensors are modelled as nested lists of rationals (rationals stand in for
the floating-point values of the source); torch operations on
equal-shaped tensors act elementwise.
-/

namespace DVLAE

/-- A single image: a list of rows, each row a list of pixel values.  The
singleton channel axis of the source data is dropped throughout. -/
abbrev Img : Type := List (List ℚ)

/-- A stack of frames, as the tensor test_data of shape (frames, H, W). -/
abbrev FrameT : Type := List Img

/-- Value of a row at column c; 0 outside the bounds (torch indexing in
the source is always in bounds, so the default never matters there). -/
def px1 (row : List ℚ) (c : Nat) : ℚ := row.getD c 0

/-- Value of an image at row r, column c. -/
def px2 (img : Img) (r c : Nat) : ℚ := px1 (img.getD r []) c

/-- Value of a frame stack at frame f, row r, column c. -/
def px (t : FrameT) (f r c : Nat) : ℚ := px2 (t.getD f []) r c

/-- Elementwise addition of rows. -/
def add1 (a b : List ℚ) : List ℚ := List.zipWith (· + ·) a b

/-- Elementwise addition of images: torch addition of equal-shaped
tensors. -/
def add2 (a b : Img) : Img := List.zipWith add1 a b

/-- Elementwise addition of frame stacks: the += of the inference loop. -/
def add3 (a b : FrameT) : FrameT := List.zipWith add2 a b

/-- torch.zeros_like on a frame stack. -/
def zeros3 (t : FrameT) : FrameT :=
  t.map (fun img => img.map (fun row => row.map (fun _ => 0)))

/-- Division of every pixel by a scalar: the MMSEs / n_samples step. -/
def div3 (t : FrameT) (q : ℚ) : FrameT :=
  t.map (fun img => img.map (fun row => row.map (fun v => v / q)))

/-- Shape of an image: the list of its row lengths. -/
def shape2 (a : Img) : List Nat := a.map List.length

/-- Shape of a frame stack: the per-frame shapes. -/
def shape3 (a : FrameT) : List (List Nat) := a.map shape2

lemma px1_map (g : ℚ → ℚ) (hg : g 0 = 0) (row : List ℚ) :
    ∀ c, px1 (row.map g) c = g (px1 row c) := by
  induction row with
  | nil => intro c; simp [px1, hg]
  | cons v vs ih =>
    intro c
    cases c with
    | zero => simp [px1]
    | succ c => simpa [px1] using ih c

lemma px2_map (g : ℚ → ℚ) (hg : g 0 = 0) (img : Img) :
    ∀ r c, px2 (img.map (fun row => row.map g)) r c = g (px2 img r c) := by
  induction img with
  | nil => intro r c; simp [px2, px1, hg]
  | cons row rest ih =>
    intro r c
    cases r with
    | zero => simpa [px2] using px1_map g hg row c
    | succ r => simpa [px2] using ih r c

lemma px_map (g : ℚ → ℚ) (hg : g 0 = 0) (t : FrameT) :
    ∀ f r c, px (t.map (fun img => img.map (fun row => row.map g))) f r c
      = g (px t f r c) := by
  induction t with
  | nil => intro f r c; simp [px, px2, px1, hg]
  | cons img rest ih =>
    intro f r c
    cases f with
    | zero => simpa [px] using px2_map g hg img r c
    | succ f => simpa [px] using ih f r c

lemma px_zeros3 (t : FrameT) (f r c : Nat) : px (zeros3 t) f r c = 0 := by
  simpa [zeros3] using px_map (fun _ => 0) rfl t f r c

lemma px_div3 (t : FrameT) (q : ℚ) (f r c : Nat) :
    px (div3 t q) f r c = px t f r c / q := by
  simpa [div3] using px_map (fun v => v / q) (zero_div q) t f r c

lemma px1_add1 (a : List ℚ) : ∀ (b : List ℚ), a.length = b.length →
    ∀ c, px1 (add1 a b) c = px1 a c + px1 b c := by
  induction a with
  | nil =>
    intro b hb c
    have : b = [] := List.length_eq_zero.mp hb.symm
    subst this
    simp [add1, px1]
  | cons v vs ih =>
    intro b hb c
    cases b with
    | nil => simp at hb
    | cons w ws =>
      cases c with
      | zero => simp [add1, px1]
      | succ c =>
        have := ih ws (by simpa using hb) c
        simpa [add1, px1] using this

lemma px2_add2 (a : Img) : ∀ (b : Img), shape2 a = shape2 b →
    ∀ r c, px2 (add2 a b) r c = px2 a r c + px2 b r c := by
  induction a with
  | nil =>
    intro b hb r c
    have : b = [] := by simpa [shape2, List.map_eq_nil_iff] using hb.symm
    subst this
    simp [add2, px2, px1]
  | cons row rows ih =>
    intro b hb r c
    cases b with
    | nil => simp [shape2] at hb
    | cons row2 rows2 =>
      simp only [shape2, List.map_cons, List.cons.injEq] at hb
      cases r with
      | zero => simpa [add2, px2] using px1_add1 row row2 hb.1 c
      | succ r =>
        have := ih rows2 (by simpa [shape2] using hb.2) r c
        simpa [add2, px2] using this

lemma px_add3 (a : FrameT) : ∀ (b : FrameT), shape3 a = shape3 b →
    ∀ f r c, px (add3 a b) f r c = px a f r c + px b f r c := by
  induction a with
  | nil =>
    intro b hb f r c
    have : b = [] := by simpa [shape3, List.map_eq_nil_iff] using hb.symm
    subst this
    simp [add3, px, px2, px1]
  | cons img imgs ih =>
    intro b hb f r c
    cases b with
    | nil => simp [shape3] at hb
    | cons img2 imgs2 =>
      simp only [shape3, List.map_cons, List.cons.injEq] at hb
      cases f with
      | zero => simpa [add3, px] using px2_add2 img img2 hb.1 r c
      | succ f =>
        have := ih imgs2 (by simpa [shape3] using hb.2) f r c
        simpa [add3, px] using this

lemma length_add1 (a b : List ℚ) (h : a.length = b.length) :
    (add1 a b).length = a.length := by
  simp [add1, h]

lemma shape2_add2 (a : Img) : ∀ (b : Img), shape2 a = shape2 b →
    shape2 (add2 a b) = shape2 a := by
  induction a with
  | nil => intro b _; simp [add2, shape2]
  | cons row rows ih =>
    intro b hb
    cases b with
    | nil => simp [shape2] at hb
    | cons row2 rows2 =>
      simp only [shape2, List.map_cons, List.cons.injEq] at hb
      simp only [add2, List.zipWith_cons_cons, shape2, List.map_cons, List.cons.injEq]
      constructor
      · exact length_add1 row row2 hb.1
      · simpa [add2, shape2] using ih rows2 (by simpa [shape2] using hb.2)

lemma shape3_add3 (a : FrameT) : ∀ (b : FrameT), shape3 a = shape3 b →
    shape3 (add3 a b) = shape3 a := by
  induction a with
  | nil => intro b _; simp [add3, shape3]
  | cons img imgs ih =>
    intro b hb
    cases b with
    | nil => simp [shape3] at hb
    | cons img2 imgs2 =>
      simp only [shape3, List.map_cons, List.cons.injEq] at hb
      simp only [add3, List.zipWith_cons_cons, shape3, List.map_cons, List.cons.injEq]
      constructor
      · exact shape2_add2 img img2 hb.1
      · simpa [add3, shape3] using ih imgs2 (by simpa [shape3] using hb.2)

lemma shape3_zeros3 (t : FrameT) : shape3 (zeros3 t) = shape3 t := by
  simp [shape3, zeros3, shape2, List.map_map, Function.comp]

lemma px_foldl_add3 (S : List (List Nat)) (outs : List FrameT) :
    ∀ acc : FrameT, shape3 acc = S → (∀ o ∈ outs, shape3 o = S) →
    ∀ f r c, px (outs.foldl add3 acc) f r c
      = px acc f r c + (outs.map (fun o => px o f r c)).sum := by
  induction outs with
  | nil => intro acc _ _ f r c; simp
  | cons o os ih =>
    intro acc hacc houts f r c
    have ho : shape3 o = S := houts o (by simp)
    have hos : ∀ o2 ∈ os, shape3 o2 = S := fun o2 h2 => houts o2 (by simp [h2])
    have hshape : shape3 (add3 acc o) = S := by
      rw [shape3_add3 acc o (hacc.trans ho.symm)]; exact hacc
    rw [List.foldl_cons, ih (add3 acc o) hshape hos f r c,
      px_add3 acc o (hacc.trans ho.symm) f r c]
    simp [List.sum_cons]
    ring

/-- The per-pass outputs of the source inference loop: the loop body runs
n_samples times and each iteration calls trainer.predict once — one full
stochastic forward pass over every input frame; pass i stands for the
concatenated output tensor of the i-th such pass. -/
def inferenceOuts (n : Nat) (pass : Nat → FrameT) : List FrameT :=
  (List.range n).map pass

/-- The MMSE accumulation of the source inference loop: MMSEs starts as
zeros_like(test_data), each of the n_samples passes adds its output with
+=, and the running sum is divided by n_samples at the end. -/
def inferenceMMSE (n : Nat) (pass : Nat → FrameT) (test : FrameT) : FrameT :=
  div3 ((inferenceOuts n pass).foldl add3 (zeros3 test)) n

/-- torch.moveaxis(x, 1, 0) on the two outer axes of a rectangular nested
list: entry (j, i) of the result is entry (i, j) of the input. -/
def moveaxis10 (xs : List FrameT) : List FrameT :=
  (List.range (xs.headD []).length).map (fun j => xs.map (fun t => t.getD j []))

/-- The samples artifact written by the source inference loop:
torch.stack(samples, dim=0) over the per-pass outputs, followed by
torch.moveaxis(-, 1, 0). -/
def savedSamples (n : Nat) (pass : Nat → FrameT) : List FrameT :=
  moveaxis10 (inferenceOuts n pass)

lemma getD_map_range {α : Type} (g : Nat → α) (m j : Nat) (d : α) (h : j < m) :
    ((List.range m).map g).getD j d = g j := by
  rw [List.getD_eq_getElem?_getD, List.getElem?_map, List.getElem?_range h]
  rfl

lemma mmse_px (n : Nat) (pass : Nat → FrameT) (test : FrameT)
    (hsh : ∀ i < n, shape3 (pass i) = shape3 test) (f r c : Nat) :
    px (inferenceMMSE n pass test) f r c
      = ((List.range n).map (fun i => px (pass i) f r c)).sum / n := by
  have houts : ∀ o ∈ inferenceOuts n pass, shape3 o = shape3 test := by
    intro o ho
    rcases List.mem_map.mp ho with ⟨i, hi, rfl⟩
    exact hsh i (List.mem_range.mp hi)
  rw [inferenceMMSE, px_div3,
    px_foldl_add3 (shape3 test) (inferenceOuts n pass) (zeros3 test)
      (shape3_zeros3 test) houts f r c,
    px_zeros3]
  simp [inferenceOuts, List.map_map, Function.comp_def]

/-- C1: the inference procedure performs n independent full stochastic
forward passes (one trainer.predict call per loop iteration), and at
every pixel the MMSE estimate — accumulated as a running sum divided by
n — equals the arithmetic mean of the n per-pass denoised outputs. -/
theorem mmse_is_pixelwise_mean (n : Nat) (pass : Nat → FrameT) (test : FrameT)
    (hsh : ∀ i < n, shape3 (pass i) = shape3 test) (f r c : Nat) :
    px (inferenceMMSE n pass test) f r c
      = ((List.range n).map (fun i => px (pass i) f r c)).sum / n :=
  mmse_px n pass test hsh f r c

/-- A concrete two-pass run over a single frame of 1x2 pixels, used to
instantiate the inference theorems. -/
def passW : Nat → FrameT := fun i => [[[(i : ℚ), 2 * i]]]

/-- A test-data stack of the same shape as the passW outputs. -/
def testW : FrameT := [[[7, 7]]]

/-- Witness for mmse_is_pixelwise_mean: the run with 2 passes on a 1x2
frame. -/
theorem mmse_is_pixelwise_mean_witness :
    px (inferenceMMSE 2 passW testW) 0 0 1
      = ((List.range 2).map (fun i => px (passW i) 0 0 1)).sum / 2 :=
  mmse_is_pixelwise_mean 2 passW testW (by decide) 0 0 1

/-- C10: the two saved artifacts are mutually consistent: at every frame
f and pixel (r, c), the MMSE artifact equals the mean over the sample
axis (the second axis) of the saved samples artifact. -/
theorem mmse_matches_saved_samples (n : Nat) (pass : Nat → FrameT) (test : FrameT)
    (hsh : ∀ i < n, shape3 (pass i) = shape3 test) (hn : 0 < n)
    (f r c : Nat) (hf : f < (pass 0).length) :
    px (inferenceMMSE n pass test) f r c
      = ((((savedSamples n pass).getD f []).map (fun img => px2 img r c)).sum) / n := by
  rw [mmse_px n pass test hsh f r c]
  congr 1
  cases n with
  | zero => exact absurd hn (by simp)
  | succ m =>
    have hhead : ((inferenceOuts (m + 1) pass).headD []).length = (pass 0).length := by
      simp [inferenceOuts, List.range_succ_eq_map]
    rw [savedSamples, moveaxis10, hhead,
      getD_map_range (fun j => (inferenceOuts (m + 1) pass).map (fun t => t.getD j []))
        (pass 0).length f [] hf]
    simp only [inferenceOuts, List.map_map, px]
    rfl

/-- Witness for mmse_matches_saved_samples: the run with 2 passes on a
1x2 frame. -/
theorem mmse_matches_saved_samples_witness :
    px (inferenceMMSE 2 passW testW) 0 0 1
      = ((((savedSamples 2 passW).getD 0 []).map (fun img => px2 img 0 1)).sum) / 2 :=
  mmse_matches_saved_samples 2 passW testW (by decide) (by decide) 0 0 1 (by decide)

/-- The outer dimensions (axis lengths) of a rank-4 nested-list tensor,
read along the first element of each axis. -/
def dims4 (x : List FrameT) : List Nat :=
  [x.length, (x.headD []).length, ((x.headD []).headD []).length,
    (((x.headD []).headD []).headD []).length]

/-- A concrete run with 2 samples over 3 frames of 1x1 images; frame f of
pass i holds the value 10 i + f. -/
def passEx : Nat → FrameT := fun i =>
  [[[(10 * i : ℚ)]], [[10 * i + 1]], [[10 * i + 2]]]

/-- C2 counterexample: for the run with 2 samples over 3 frames of 1x1
images, the saved samples array does not have shape
(samples, frames, H, W) = (2, 3, 1, 1): the source moves the frame axis
to the front with torch.moveaxis(samples, 1, 0), so the array's shape is
(3, 2, 1, 1). -/
theorem saved_samples_shape_counterexample :
    dims4 (savedSamples 2 passEx) ≠ [2, 3, 1, 1] := by decide

/-- C2 amended: the saved samples array has the frame axis first and the
sample axis second — shape (frames, samples, H, W): its length is the
frame count, each entry has length equal to the sample count, and entry
(f, i) is frame f of the i-th per-pass output. -/
theorem saved_samples_shape (n : Nat) (pass : Nat → FrameT) (F : Nat)
    (hn : 0 < n) (hF : ∀ i < n, (pass i).length = F) :
    (savedSamples n pass).length = F ∧
    ∀ f < F, ((savedSamples n pass).getD f []).length = n ∧
      ∀ i < n, ((savedSamples n pass).getD f []).getD i [] = (pass i).getD f [] := by
  cases n with
  | zero => exact absurd hn (by simp)
  | succ m =>
    have hhead : ((inferenceOuts (m + 1) pass).headD []).length = F := by
      have h0 : (pass 0).length = F := hF 0 (Nat.succ_pos m)
      simp [inferenceOuts, List.range_succ_eq_map, h0]
    constructor
    · rw [savedSamples, moveaxis10, hhead]
      simp
    · intro f hfF
      rw [savedSamples, moveaxis10, hhead,
        getD_map_range (fun j => (inferenceOuts (m + 1) pass).map (fun t => t.getD j []))
          F f [] hfF]
      constructor
      · simp [inferenceOuts]
      · intro i hi
        rw [inferenceOuts, List.map_map]
        exact getD_map_range ((fun t => List.getD t f []) ∘ pass) (m + 1) i [] hi

/-- Witness for saved_samples_shape: the 2-sample, 3-frame run. -/
theorem saved_samples_shape_witness :
    (savedSamples 2 passEx).length = 3 :=
  (saved_samples_shape 2 passEx 3 (by decide) (by decide)).1

/-- The batching of the prediction DataLoader (shuffle=False,
drop_last left at its default False): the dataset elements split into
consecutive batches of size b, the last batch possibly smaller.  A batch
size of 0 is rejected by the loader and yields no batches here. -/
def chunkList {α : Type} (b : Nat) (xs : List α) : List (List α) :=
  match xs with
  | [] => []
  | x :: rest =>
    if _h : b = 0 then []
    else (x :: rest).take b :: chunkList b ((x :: rest).drop b)
termination_by xs.length
decreasing_by
  simp only [List.length_drop, List.length_cons]
  omega

lemma chunkList_flatten {α : Type} (b : Nat) (hb : b ≠ 0) (xs : List α) :
    (chunkList b xs).flatten = xs := by
  suffices h : ∀ n (ys : List α), ys.length ≤ n → (chunkList b ys).flatten = ys by
    exact h xs.length xs le_rfl
  intro n
  induction n with
  | zero =>
    intro ys hy
    have : ys = [] := List.length_eq_zero.mp (Nat.le_zero.mp hy)
    subst this
    simp [chunkList]
  | succ n ih =>
    intro ys hy
    cases ys with
    | nil => simp [chunkList]
    | cons y rest =>
      rw [chunkList, dif_neg hb, List.flatten_cons]
      have hle : ((y :: rest).drop b).length ≤ n := by
        simp only [List.length_drop, List.length_cons]
        simp only [List.length_cons] at hy
        omega
      rw [ih ((y :: rest).drop b) hle]
      exact List.take_append_drop b (y :: rest)

/-- One full prediction pass over the dataset at inner batch size b:
the loader yields consecutive batches, trainer.predict runs the per-image
stochastic forward over each batch, and the source concatenates the
per-batch outputs with torch.cat(out, dim=0).  Each dataset element is
already paired with the random draws its forward pass consumes, so the
draws are fixed independently of the batching. -/
def predictPass {α : Type} (b : Nat) (elems : List α) (fwd : α → Img) : FrameT :=
  ((chunkList b elems).map (fun batch => batch.map fwd)).flatten

/-- The full inference computation of the source at inner batch size b:
n passes, each predicted batch-wise and concatenated, accumulated into
the running MMSE sum and divided by n.  elems i pairs the (fixed) input
frames with the random draws of pass i. -/
def inferenceMMSEBatched {α : Type} (b n : Nat) (elems : Nat → List α)
    (fwd : α → Img) (test : FrameT) : FrameT :=
  div3 (((List.range n).map (fun i => predictPass b (elems i) fwd)).foldl
    add3 (zeros3 test)) n

lemma predictPass_eq_map {α : Type} (b : Nat) (hb : b ≠ 0) (elems : List α)
    (fwd : α → Img) : predictPass b elems fwd = elems.map fwd := by
  rw [predictPass, ← List.map_flatten, chunkList_flatten b hb elems]

/-- C4: the inference MMSE estimate is invariant to the inner prediction
batch size: with the model, inputs, sample count and per-pass random
draws all fixed, any two (positive) batch sizes produce the same MMSE
tensor — batching only regroups the per-image forward passes. -/
theorem mmse_batch_invariant {α : Type} (b1 b2 n : Nat) (elems : Nat → List α)
    (fwd : α → Img) (test : FrameT) (h1 : b1 ≠ 0) (h2 : b2 ≠ 0) :
    inferenceMMSEBatched b1 n elems fwd test
      = inferenceMMSEBatched b2 n elems fwd test := by
  rw [inferenceMMSEBatched, inferenceMMSEBatched]
  have hpass : ∀ i, predictPass b1 (elems i) fwd = predictPass b2 (elems i) fwd := by
    intro i
    rw [predictPass_eq_map b1 h1, predictPass_eq_map b2 h2]
  rw [List.map_congr_left (fun i _ => hpass i)]

/-- Witness for mmse_batch_invariant: batch sizes 1 and 2 over a
three-image dataset (images paired with their pass draws as rationals),
2 passes. -/
theorem mmse_batch_invariant_witness :
    inferenceMMSEBatched 1 2 (fun i => [((1 : ℚ), (i : ℚ)), (2, i), (3, i)])
        (fun p => [[p.1 + p.2]]) [[[0]], [[0]], [[0]]]
      = inferenceMMSEBatched 2 2 (fun i => [((1 : ℚ), (i : ℚ)), (2, i), (3, i)])
        (fun p => [[p.1 + p.2]]) [[[0]], [[0]], [[0]]] :=
  mmse_batch_invariant 1 2 2 (fun i => [((1 : ℚ), (i : ℚ)), (2, i), (3, i)])
    (fun p => [[p.1 + p.2]]) [[[0]], [[0]], [[0]]] (by decide) (by decide)

/-- The unsupervised training dataset of the source: a list of images, a
repetition factor n_iters, and an optional transform applied on access. -/
structure TrainDatasetUnsupervised (α : Type) where
  images : List α
  n_iters : Nat
  transform : Option (α → α)

/-- The len of the dataset: n_images * n_iters. -/
def TrainDatasetUnsupervised.len {α : Type} (d : TrainDatasetUnsupervised α) : Nat :=
  d.images.length * d.n_iters

/-- The optional transform of the dataset, as a function. -/
def applyTransform {α : Type} (t : Option (α → α)) (x : α) : α :=
  match t with
  | some f => f x
  | none => x

/-- getitem of the dataset: reduce idx modulo n_images, fetch the image
at the reduced index, and apply the transform when one is set; none
signals an out-of-bounds access. -/
def TrainDatasetUnsupervised.getItem {α : Type} (d : TrainDatasetUnsupervised α)
    (idx : Nat) : Option α :=
  (d.images[idx % d.images.length]?).map (applyTransform d.transform)

lemma count_range_eq_one (n j : Nat) (hj : j < n) :
    (List.range n).countP (fun i => i == j) = 1 := by
  induction n with
  | zero => exact absurd hj (Nat.not_lt_zero j)
  | succ n ih =>
    rw [List.range_succ, List.countP_append]
    rcases Nat.lt_or_ge j n with h | h
    · rw [ih h]
      have : n ≠ j := by omega
      simp [this]
    · have hj' : j = n := by omega
      subst hj'
      have h0 : (List.range j).countP (fun i => i == j) = 0 := by
        rw [List.countP_eq_zero]
        intro a ha
        have : a < j := List.mem_range.mp ha
        simp
        omega
      rw [h0]
      simp

lemma countP_mod_range (nI j : Nat) (hj : j < nI) (m : Nat) :
    (List.range (nI * m)).countP (fun i => i % nI == j) = m := by
  induction m with
  | zero => simp
  | succ m ih =>
    have hsplit : nI * (m + 1) = nI * m + nI := by ring
    rw [hsplit, List.range_add, List.countP_append, ih, List.countP_map]
    have hone : (List.range nI).countP ((fun i => i % nI == j) ∘ (nI * m + ·)) = 1 := by
      have hcong : (List.range nI).countP ((fun i => i % nI == j) ∘ (nI * m + ·))
          = (List.range nI).countP (fun i => i == j) := by
        apply List.countP_congr
        intro a ha
        have ha' : a < nI := List.mem_range.mp ha
        have hmod : (nI * m + a) % nI = a := by
          rw [Nat.mul_add_mod]
          exact Nat.mod_eq_of_lt ha'
        simp [Function.comp, hmod]
      rw [hcong]
      exact count_range_eq_one nI j hj
    rw [hone]

/-- C9: the training dataset reports length n_images * n_iters; getitem
succeeds on every index below that length, returning the (optionally
transformed) image at position idx mod n_images; and over one epoch
(indices 0 .. len - 1) each underlying image position is served exactly
n_iters times. -/
theorem train_dataset_indexing {α : Type} (d : TrainDatasetUnsupervised α) :
    d.len = d.images.length * d.n_iters ∧
    (∀ idx < d.len, ∃ img, d.images[idx % d.images.length]? = some img ∧
        d.getItem idx = some (applyTransform d.transform img)) ∧
    (∀ j < d.images.length,
      (List.range d.len).countP (fun idx => idx % d.images.length == j) = d.n_iters) := by
  refine ⟨rfl, ?_, ?_⟩
  · intro idx hidx
    have hpos : 0 < d.images.length := by
      by_contra h
      simp only [Nat.not_lt, Nat.le_zero] at h
      rw [TrainDatasetUnsupervised.len, h] at hidx
      omega
    have hlt : idx % d.images.length < d.images.length := Nat.mod_lt idx hpos
    refine ⟨d.images[idx % d.images.length], ?_, ?_⟩
    · exact List.getElem?_eq_getElem hlt
    · rw [TrainDatasetUnsupervised.getItem, List.getElem?_eq_getElem hlt]
      rfl
  · intro j hj
    exact countP_mod_range d.images.length j hj d.n_iters

/-- A concrete dataset: two rational images, n_iters = 3, transform
adding 10. -/
def dW : TrainDatasetUnsupervised ℚ := ⟨[1, 2], 3, some (fun x => x + 10)⟩

/-- Witness for train_dataset_indexing: image position 0 of the
two-image dataset with n_iters = 3 is served exactly 3 times. -/
theorem train_dataset_indexing_witness :
    (List.range dW.len).countP (fun idx => idx % dW.images.length == 0) = dW.n_iters :=
  (train_dataset_indexing dW).2.2 0 (by decide)

/-- Modelled from the spec: normalization by the stored per-dataset
constants — (x - data_mean) / data_std applied pixelwise before an image
reaches any model.  The DVLAE module holding data_mean and data_std is
not under src. -/
def normalizeImg (mean std : ℚ) (x : Img) : Img :=
  x.map (fun row => row.map (fun v => (v - mean) / std))

/-- Modelled from the spec: the inverse de-normalization y * data_std +
data_mean, applied pixelwise on model output. -/
def denormalizeImg (mean std : ℚ) (y : Img) : Img :=
  y.map (fun row => row.map (fun v => v * std + mean))

/-- C7: normalization with the dataset constants is invertible whenever
the stored standard deviation is nonzero: de-normalize(normalize(x)) = x
for every image; the identity is exact over the rationals, which model
the up-to-floating-point-tolerance claim. -/
theorem denormalize_normalize (mean std : ℚ) (hstd : std ≠ 0) (x : Img) :
    denormalizeImg mean std (normalizeImg mean std x) = x := by
  have hpt : ∀ v : ℚ, (v - mean) / std * std + mean = v := by
    intro v
    field_simp
  simp [denormalizeImg, normalizeImg, List.map_map, Function.comp_def, hpt]

/-- Witness for denormalize_normalize: mean 3, std 2 on a 2x2 image. -/
theorem denormalize_normalize_witness :
    (2 : ℚ) ≠ 0 ∧
      denormalizeImg 3 2 (normalizeImg 3 2 [[1, 5], [2, 0]]) = [[1, 5], [2, 0]] :=
  ⟨by norm_num, denormalize_normalize 3 2 (by norm_num) [[1, 5], [2, 0]]⟩

/-- Modelled from the spec: the closed-form per-level KL divergence of
the stochastic decode, between the posterior Gaussian N(mu1, exp l1) and
the level prior Gaussian N(mu2, exp l2), in the log-variance
parameterization the encoder emits.  The coarsest level takes the fixed
standard-normal prior mu2 = 0, l2 = 0; every other level takes a learned
prior from the coarser level's decoder path.  The LadderVAE KL
computation is not under src. -/
noncomputable def klTerm (mu1 l1 mu2 l2 : ℝ) : ℝ :=
  ((l2 - l1) + (Real.exp l1 + (mu1 - mu2) ^ 2) / Real.exp l2 - 1) / 2

/-- C6: every per-level KL term is non-negative for every valid (mean,
log-variance) posterior pair, at every hierarchy level — both for the
fixed standard-normal prior (mu2 = 0, l2 = 0) of the top level and for
every learned prior. -/
theorem klTerm_nonneg (mu1 l1 mu2 l2 : ℝ) : 0 ≤ klTerm mu1 l1 mu2 l2 := by
  rw [klTerm]
  have hexp : (0 : ℝ) < Real.exp l2 := Real.exp_pos l2
  have hdiv : (Real.exp l1 + (mu1 - mu2) ^ 2) / Real.exp l2
      = Real.exp (l1 - l2) + (mu1 - mu2) ^ 2 / Real.exp l2 := by
    rw [add_div, ← Real.exp_sub]
  rw [hdiv]
  have h1 : (l1 - l2) + 1 ≤ Real.exp (l1 - l2) := Real.add_one_le_exp (l1 - l2)
  have h2 : 0 ≤ (mu1 - mu2) ^ 2 / Real.exp l2 := div_nonneg (sq_nonneg _) hexp.le
  linarith

/-- Modelled from the spec: the trained model state a checkpoint must
persist — the learned weights of the three networks, the normalization
constants, and the hyperparameters that determine the topology (level
count, latent dimensions, per-level downsampling flags, kernel size,
mixture component count).  The persistence code (trainer.save_checkpoint
and DVLAE.load_from_checkpoint) is not under src. -/
structure ModelState where
  vae_weights : List ℚ
  noise_weights : List ℚ
  sdecoder_weights : List ℚ
  data_mean : ℚ
  data_std : ℚ
  n_layers : Nat
  z_dims : List Nat
  downsampling : List Nat
  kernel_size : Nat
  n_gaussians : Nat
deriving DecidableEq

/-- Modelled from the spec: the serialized checkpoint — a flat stream of
configuration numbers (with explicit section lengths) and a flat stream
of weights and normalization constants. -/
structure Checkpoint where
  nats : List Nat
  rats : List ℚ
deriving DecidableEq

/-- save_checkpoint: lay out the section lengths, the configuration lists
and the concatenated weights into the two flat streams. -/
def saveCheckpoint (st : ModelState) : Checkpoint where
  nats := [st.n_layers, st.kernel_size, st.n_gaussians,
    st.z_dims.length, st.downsampling.length, st.vae_weights.length,
    st.noise_weights.length, st.sdecoder_weights.length]
    ++ st.z_dims ++ st.downsampling
  rats := st.vae_weights ++ st.noise_weights ++ st.sdecoder_weights
    ++ [st.data_mean, st.data_std]

/-- load_from_checkpoint: parse the two streams back into a model state,
reporting missing keys or section-length mismatches as checkpoint-load
errors (the distinct error kind of the spec). -/
def loadCheckpoint (c : Checkpoint) : Except String ModelState :=
  match c.nats with
  | nl :: ks :: ng :: zlen :: dlen :: vlen :: nwlen :: slen :: rest =>
    if rest.length = zlen + dlen then
      match (((c.rats.drop vlen).drop nwlen).drop slen) with
      | [m, s] =>
        Except.ok
          ⟨c.rats.take vlen, (c.rats.drop vlen).take nwlen,
            ((c.rats.drop vlen).drop nwlen).take slen, m, s,
            nl, rest.take zlen, (rest.drop zlen).take dlen, ks, ng⟩
      | _ => Except.error "checkpoint weight sections have wrong lengths"
    else Except.error "checkpoint config sections have wrong lengths"
  | _ => Except.error "checkpoint misses keys"

/-- C3: checkpoint persistence round-trips: loading a saved checkpoint
reproduces the model state exactly — every learned parameter and every
configuration field — and therefore the reloaded model produces the same
forward-pass output as the original for any fixed input and fixed random
seed. -/
theorem checkpoint_roundtrip (st : ModelState) :
    loadCheckpoint (saveCheckpoint st) = Except.ok st ∧
    ∀ (forwardPass : ModelState → Img → Nat → Img) (x : Img) (seed : Nat),
      (loadCheckpoint (saveCheckpoint st)).toOption.map
          (fun s => forwardPass s x seed)
        = some (forwardPass st x seed) := by
  have hload : loadCheckpoint (saveCheckpoint st) = Except.ok st := by
    simp [loadCheckpoint, saveCheckpoint]
  refine ⟨hload, ?_⟩
  intro forwardPass x seed
  rw [hload]
  rfl

/-- A two-dimensional grid of values, indexed by row and column. -/
abbrev Grid : Type := Nat → Nat → ℚ

/-- Modelled from the spec: one shifted, strictly causal one-dimensional
convolution along rows (the masked/shifted convolutions of the
horizontal-receptive-field noise model): the output at (r, c) reads only
the inputs at (r, c - 1) .. (r, c - K) — pixels strictly to the left in
the same row; positions left of the border read 0. -/
def shiftConv (w : List ℚ) (g : Grid) : Grid := fun r c =>
  ((List.range w.length).map (fun k =>
    w.getD k 0 * (if k + 1 ≤ c then g r (c - (k + 1)) else 0))).sum

/-- ReLU over the rationals. -/
def reluQ (x : ℚ) : ℚ := max x 0

/-- Parameters of one layer of the noise model: the causal 1-D kernel,
the pointwise (1x1) weight on the signal code, and a bias. -/
structure PCNNLayer where
  w : List ℚ
  a : ℚ
  b : ℚ

/-- Modelled from the spec: one PixelCNN layer — the strictly causal row
convolution of the hidden grid, a pointwise contribution of the signal
code, and a bias, passed through the nonlinearity. -/
def applyLayer (s : Grid) (L : PCNNLayer) (h : Grid) : Grid := fun r c =>
  reluQ (shiftConv L.w h r c + L.a * s r c + L.b)

/-- Modelled from the spec: the hidden stack of the noise model with
horizontal receptive field — n_layers causal layers applied in sequence,
starting from the noisy image. -/
def pcnnHidden (layers : List PCNNLayer) (s x : Grid) : Grid :=
  layers.foldl (fun h L => applyLayer s L h) x

/-- Parameters of one mixture-head readout: weights on the final hidden
grid and the signal code, and a bias. -/
structure MixHead where
  u : ℚ
  v : ℚ
  t : ℚ

/-- Modelled from the spec: the predicted mixture parameter number j at
each pixel — each of the n_gaussians readouts is a pointwise (1x1)
function of the final hidden grid and the signal code.  The PixelCNN
implementation is not under src. -/
def pcnnParams (layers : List PCNNLayer) (heads : List MixHead) (s x : Grid)
    (j : Nat) : Grid := fun r c =>
  (heads.getD j ⟨0, 0, 0⟩).u * pcnnHidden layers s x r c
    + (heads.getD j ⟨0, 0, 0⟩).v * s r c + (heads.getD j ⟨0, 0, 0⟩).t

/-- Agreement of two grids everywhere except possibly in row r at
columns ≥ c. -/
def AgreeExcept (g g2 : Grid) (r c : Nat) : Prop :=
  ∀ r2 c2, (r2 ≠ r ∨ c2 < c) → g r2 c2 = g2 r2 c2

lemma shiftConv_agree (w : List ℚ) (g g2 : Grid) (r c : Nat)
    (h : AgreeExcept g g2 r c) : AgreeExcept (shiftConv w g) (shiftConv w g2) r c := by
  intro r2 c2 hpos
  rw [shiftConv, shiftConv]
  congr 1
  apply List.map_congr_left
  intro k _
  congr 1
  by_cases hk : k + 1 ≤ c2
  · rw [if_pos hk, if_pos hk]
    apply h
    rcases hpos with hr | hc
    · exact Or.inl hr
    · exact Or.inr (by omega)
  · rw [if_neg hk, if_neg hk]

lemma applyLayer_agree (s : Grid) (L : PCNNLayer) (g g2 : Grid) (r c : Nat)
    (h : AgreeExcept g g2 r c) :
    AgreeExcept (applyLayer s L g) (applyLayer s L g2) r c := by
  intro r2 c2 hpos
  rw [applyLayer, applyLayer, shiftConv_agree L.w g g2 r c h r2 c2 hpos]

lemma pcnnHidden_agree (layers : List PCNNLayer) (s : Grid) :
    ∀ (g g2 : Grid) (r c : Nat), AgreeExcept g g2 r c →
      AgreeExcept (pcnnHidden layers s g) (pcnnHidden layers s g2) r c := by
  induction layers with
  | nil => intro g g2 r c h; exact h
  | cons L rest ih =>
    intro g g2 r c h
    exact ih (applyLayer s L g) (applyLayer s L g2) r c
      (applyLayer_agree s L g g2 r c h)

/-- C5: the noise model is strictly causal along its row orientation:
holding the signal code fixed, perturbing the noisy image at row r,
column c changes the predicted mixture parameters of no pixel in an
earlier row and of no pixel at row r with a smaller column. -/
theorem pcnn_causal (layers : List PCNNLayer) (heads : List MixHead)
    (s x x2 : Grid) (r c : Nat)
    (hperturb : ∀ r2 c2, ¬(r2 = r ∧ c2 = c) → x r2 c2 = x2 r2 c2)
    (j r2 c2 : Nat) (hpos : r2 < r ∨ (r2 = r ∧ c2 < c)) :
    pcnnParams layers heads s x j r2 c2 = pcnnParams layers heads s x2 j r2 c2 := by
  have hagree : AgreeExcept x x2 r c := by
    intro r3 c3 h3
    apply hperturb
    rintro ⟨rfl, rfl⟩
    rcases h3 with h | h
    · exact h rfl
    · omega
  have hhid := pcnnHidden_agree layers s x x2 r c hagree r2 c2
    (by rcases hpos with h | ⟨rfl, h⟩
        · exact Or.inl (by omega)
        · exact Or.inr h)
  rw [pcnnParams, pcnnParams, hhid]

/-- The perturbed input: a single nonzero pixel at row 0, column 1. -/
def xPert : Grid := fun r c => if r = 0 ∧ c = 1 then 5 else 0

/-- The unperturbed input: the zero grid. -/
def xZero : Grid := fun _ _ => 0

/-- Witness for pcnn_causal: a one-layer network with one mixture head;
perturbing pixel (0, 1) leaves the prediction at pixel (0, 0)
unchanged. -/
theorem pcnn_causal_witness :
    pcnnParams [⟨[1], 1, 0⟩] [⟨1, 1, 0⟩] xZero xPert 0 0 0
      = pcnnParams [⟨[1], 1, 0⟩] [⟨1, 1, 0⟩] xZero xZero 0 0 0 :=
  pcnn_causal [⟨[1], 1, 0⟩] [⟨1, 1, 0⟩] xZero xPert xZero 0 1
    (by
      intro r2 c2 h
      rw [xPert, xZero]
      simp only [if_neg h])
    0 0 0 (Or.inr ⟨rfl, Nat.zero_lt_one⟩)

/-- Configuration of the LadderVAE constructor call of the training
notebook. -/
structure LVAEConfig where
  colour_channels : Nat
  s_code_channels : Nat
  n_filters : Nat
  z_dims : List Nat
  downsampling : List Nat
deriving DecidableEq

/-- Configuration of the PixelCNN constructor call. -/
structure PCNNConfig where
  colour_channels : Nat
  s_code_channels : Nat
deriving DecidableEq

/-- Configuration of the SDecoder constructor call. -/
structure SDecoderConfig where
  colour_channels : Nat
  s_code_channels : Nat
deriving DecidableEq

/-- Modelled from torchvision semantics as used by the source:
transforms.RandomCrop construction only records the crop size — it sees
no image, so it cannot compare the crop with the data and never raises at
construction. -/
structure RandomCrop where
  size : Nat
deriving DecidableEq

/-- Crop application at data-access time (inside the dataset getitem):
torchvision raises when the image is smaller than the requested crop;
otherwise it returns a size x size window (the random offset is
irrelevant to error behaviour and taken as the top-left corner here). -/
def applyCrop (t : RandomCrop) (img : Img) : Except String Img :=
  if img.length < t.size ∨ (img.headD []).length < t.size then
    Except.error "required crop size is larger than input image size"
  else
    Except.ok ((img.take t.size).map (fun row => row.take t.size))

/-- Modelled from the spec: the LadderVAE constructor detects a
downsampling list whose length does not match the level count at
construction time. -/
def mkLadderVAE (cfg : LVAEConfig) : Except String LVAEConfig :=
  if cfg.downsampling.length ≠ cfg.z_dims.length then
    Except.error "downsampling length does not match number of levels"
  else Except.ok cfg

/-- Modelled from the spec: the DVLAE constructor detects mismatched
channel counts between the three components at construction time. -/
def mkDVLAE (vae : LVAEConfig) (nm : PCNNConfig) (sd : SDecoderConfig) :
    Except String Unit :=
  if vae.s_code_channels ≠ nm.s_code_channels
      ∨ vae.s_code_channels ≠ sd.s_code_channels
      ∨ vae.colour_channels ≠ nm.colour_channels
      ∨ vae.colour_channels ≠ sd.colour_channels then
    Except.error "channel counts of components do not match"
  else Except.ok ()

/-- Everything the training notebook builds before any data is fetched or
any forward pass runs. -/
structure TrainSetup where
  crop : RandomCrop
  train_images : List Img
  vae : LVAEConfig
deriving DecidableEq

/-- The construction phase of the training notebook: create the random
crop transform, the dataset, and the three models.  The crop size is
never compared with the image sizes here — the model constructors only
see img_shape = (crop_size, crop_size), not the data. -/
def constructAll (images : List Img) (crop_size : Nat) (vae : LVAEConfig)
    (nm : PCNNConfig) (sd : SDecoderConfig) : Except String TrainSetup := do
  let t : RandomCrop := ⟨crop_size⟩
  let _ ← mkLadderVAE vae
  let _ ← mkDVLAE vae nm sd
  Except.ok ⟨t, images, vae⟩

/-- The first data access of training: the dataset getitem applies the
random crop to the selected image. -/
def firstFetch (s : TrainSetup) : Except String Img :=
  match s.train_images with
  | [] => Except.error "empty dataset"
  | img :: _ => applyCrop s.crop img

/-- A concrete 2x2 image, smaller than the crop size 4 used below. -/
def imgSmall : Img := [[1, 2], [3, 4]]

/-- A consistent LadderVAE configuration with two levels. -/
def vaeCfg : LVAEConfig := ⟨1, 8, 8, [4, 4], [0, 1]⟩

/-- A noise-model configuration matching vaeCfg. -/
def nmCfg : PCNNConfig := ⟨1, 8⟩

/-- A signal-decoder configuration matching vaeCfg. -/
def sdCfg : SDecoderConfig := ⟨1, 8⟩

/-- C8 counterexample: a crop size (4) larger than the 2x2 training image
is an invalid configuration, yet model construction raises no error —
nothing at construction time compares the crop with the data. -/
theorem config_crop_not_checked_at_construction :
    imgSmall.length < 4 ∧
      (constructAll [imgSmall] 4 vaeCfg nmCfg sdCfg).isOk = true := by decide

/-- C8 amended: a downsampling list whose length does not match the level
count and mismatched channel counts between components are detected at
model-construction time; a crop size larger than the image is not — it
surfaces only at the first data access, which is still before any forward
pass. -/
theorem config_error_detection (images : List Img) (crop_size : Nat)
    (vae : LVAEConfig) (nm : PCNNConfig) (sd : SDecoderConfig) :
    (vae.downsampling.length ≠ vae.z_dims.length →
      constructAll images crop_size vae nm sd
        = Except.error "downsampling length does not match number of levels") ∧
    (vae.downsampling.length = vae.z_dims.length →
      vae.s_code_channels ≠ nm.s_code_channels →
      constructAll images crop_size vae nm sd
        = Except.error "channel counts of components do not match") ∧
    (∀ setup img rest,
      constructAll images crop_size vae nm sd = Except.ok setup →
      images = img :: rest → img.length < crop_size →
      firstFetch setup
        = Except.error "required crop size is larger than input image size") := by
  refine ⟨?_, ?_, ?_⟩
  · intro hmis
    rw [constructAll, mkLadderVAE, if_pos hmis]
    rfl
  · intro hok hch
    rw [constructAll, mkLadderVAE, if_neg (by rw [hok]; exact fun h => h rfl),
      mkDVLAE, if_pos (Or.inl hch)]
    rfl
  · intro setup img rest hcons himgs hsmall
    have hsetup : setup = ⟨⟨crop_size⟩, images, vae⟩ := by
      rw [constructAll] at hcons
      cases hv : mkLadderVAE vae with
      | error e => rw [hv] at hcons; exact absurd hcons (by simp [Bind.bind, Except.bind])
      | ok v =>
        cases hd : mkDVLAE vae nm sd with
        | error e =>
          rw [hv, hd] at hcons
          exact absurd hcons (by simp [Bind.bind, Except.bind])
        | ok u =>
          rw [hv, hd] at hcons
          simp only [Bind.bind, Except.bind, Except.ok.injEq] at hcons
          exact hcons.symm
    subst hsetup
    subst himgs
    show applyCrop ⟨crop_size⟩ img
      = Except.error "required crop size is larger than input image size"
    simp [applyCrop, hsmall]

/-- Witness for config_error_detection: the 2x2 image with crop size 4
passes construction and fails at the first fetch. -/
theorem config_error_detection_witness :
    firstFetch ⟨⟨4⟩, [imgSmall], vaeCfg⟩
      = Except.error "required crop size is larger than input image size" :=
  (config_error_detection [imgSmall] 4 vaeCfg nmCfg sdCfg).2.2
    ⟨⟨4⟩, [imgSmall], vaeCfg⟩ imgSmall [] rfl rfl (by decide)

end DVLAE
